import Mathlib

/-!
Verification of the stock prediction script (src/prediction.js).

This file gives a shallow embedding of the functions of the script and proves
correctness properties about them.  Modelling conventions:

* JavaScript numbers are modelled by `JSNum`: an exact rational together with
  NaN and the two infinities.  IEEE 754 rounding is not modelled (all claims
  under consideration are about algebraic identities and NaN propagation, not
  about rounding); negative zero is likewise identified with zero.
* The host time zone is taken to be UTC, so that local-time date construction
  and UTC rendering agree (the specification leaves the time zone to the host).
* Dates are modelled as epoch day numbers (days since 1970-01-01); the
  ECMAScript day/field conversions are embedded as executable functions on
  integers.
-/

/-- Model of a JavaScript number: an exact rational, NaN, or a signed
infinity (`inf true` is positive infinity). -/
inductive JSNum where
  | num : ℚ → JSNum
  | nan : JSNum
  | inf : Bool → JSNum
deriving DecidableEq, Repr

namespace JSNum

/-- Model of the JavaScript `isNaN` test on a number. -/
def isNaN : JSNum → Bool
  | nan => true
  | _ => false

/-- IEEE addition on the model (exact, no rounding). -/
def add : JSNum → JSNum → JSNum
  | num a, num b => num (a + b)
  | nan, _ => nan
  | _, nan => nan
  | inf s, inf t => if s = t then inf s else nan
  | inf s, num _ => inf s
  | num _, inf t => inf t

/-- IEEE subtraction on the model (exact, no rounding). -/
def sub : JSNum → JSNum → JSNum
  | num a, num b => num (a - b)
  | nan, _ => nan
  | _, nan => nan
  | inf s, inf t => if s = t then nan else inf s
  | inf s, num _ => inf s
  | num _, inf t => inf (!t)

/-- IEEE multiplication on the model (exact, no rounding). -/
def mul : JSNum → JSNum → JSNum
  | num a, num b => num (a * b)
  | nan, _ => nan
  | _, nan => nan
  | inf s, inf t => inf (s = t)
  | inf s, num b => if b = 0 then nan else inf (s = decide (0 < b))
  | num a, inf t => if a = 0 then nan else inf (t = decide (0 < a))

/-- IEEE division on the model (exact, no rounding; negative zero is
identified with zero, so division of a nonzero value by zero yields the
infinity signed by the numerator). -/
def div : JSNum → JSNum → JSNum
  | nan, _ => nan
  | _, nan => nan
  | num a, num b =>
      if b = 0 then (if a = 0 then nan else inf (decide (0 < a))) else num (a / b)
  | inf s, num b => inf (s = decide (0 ≤ b))
  | num _, inf _ => num 0
  | inf _, inf _ => nan

instance : Add JSNum := ⟨add⟩
instance : Sub JSNum := ⟨sub⟩
instance : Mul JSNum := ⟨mul⟩
instance : Div JSNum := ⟨div⟩

end JSNum

/-- Model of the arrow function `normalize` defined inside `prepareData`
(src/prediction.js line 65): `(value, min, max) => (value - min) / (max - min)`. -/
def normalizeMinMax (value min max : JSNum) : JSNum :=
  (value - min) / (max - min)

/-- Model of the per-prediction step of `predictPrices`
(src/prediction.js lines 120-127): denormalize the prediction with the price
range and substitute 0 for NaN.  The boolean records whether the
`console.warn` call fired for this entry. -/
def denormOne (minPrice maxPrice p : JSNum) : JSNum × Bool :=
  let value := p * (maxPrice - minPrice) + minPrice
  if value.isNaN then (JSNum.num 0, true) else (value, false)

/-- C3: for min < max and v between min and max, min-max normalization
(the `normalize` arrow of `prepareData`) followed by the denormalization map
of `predictPrices` returns exactly v; in the exact-rational model of JS
numbers the round trip is exact, hence within floating-point tolerance. -/
theorem normalize_denormalize_roundtrip (v mn mx : ℚ) (hlt : mn < mx)
    (hv1 : mn ≤ v) (hv2 : v ≤ mx) :
    (denormOne (JSNum.num mn) (JSNum.num mx)
        (normalizeMinMax (JSNum.num v) (JSNum.num mn) (JSNum.num mx))).1
      = JSNum.num v := by
  have hne : mx - mn ≠ 0 := by intro h; exact absurd (by linarith : mx ≤ mn) (not_le.mpr hlt)
  show (denormOne _ _ (JSNum.div (JSNum.num (v - mn)) (JSNum.num (mx - mn)))).1 = _
  rw [JSNum.div]
  simp only [hne, if_false]
  show (denormOne _ _ _).1 = _
  rw [denormOne]
  show (JSNum.num ((v - mn) / (mx - mn) * (mx - mn) + mn), false).1 = _
  rw [div_mul_cancel₀ _ hne]
  norm_num

/-- Witness for C3 at v = 1, min = 0, max = 2. -/
theorem normalize_denormalize_roundtrip_witness :
    (denormOne (JSNum.num 0) (JSNum.num 2)
        (normalizeMinMax (JSNum.num 1) (JSNum.num 0) (JSNum.num 2))).1
      = JSNum.num 1 :=
  normalize_denormalize_roundtrip 1 0 2 (by norm_num) (by norm_num) (by norm_num)

/-- Model of the TensorFlow model produced by `trainModel`: a single dense
unit, i.e. an opaque map applied to each normalized input independently
(`model.predict` maps each row of the input tensor through the unit). -/
structure TFModel where
  predictOne : JSNum → JSNum

/-- Model of `predictPrices` (src/prediction.js lines 105-131): normalize the
dates with the training range, run the model, denormalize each prediction with
the price range, substituting 0 for NaN.  The first component is the returned
price array; the second records, per entry, whether `console.warn` fired. -/
def predictPrices (model : TFModel) (dates : List JSNum)
    (minDate maxDate minPrice maxPrice : JSNum) : List JSNum × List Bool :=
  let normalizedDates := dates.map (fun date => (date - minDate) / (maxDate - minDate))
  let predictions := normalizedDates.map model.predictOne
  let mapped := predictions.map (denormOne minPrice maxPrice)
  (mapped.map Prod.fst, mapped.map Prod.snd)

/-- C4: in `predictPrices`, a prediction whose denormalized value is NaN is
emitted as 0 with a warning, and a prediction whose denormalized value is not
NaN is emitted as `normalized * (maxPrice - minPrice) + minPrice` with no
warning.  The function is total, so the run always continues: no error is
thrown either way. -/
theorem predictPrices_nan_policy (model : TFModel) (dates : List JSNum)
    (minDate maxDate minPrice maxPrice : JSNum) (i : Nat)
    (hi : i < dates.length) :
    ((model.predictOne ((dates[i] - minDate) / (maxDate - minDate))
          * (maxPrice - minPrice) + minPrice).isNaN = true →
        (predictPrices model dates minDate maxDate minPrice maxPrice).1[i]?
            = some (JSNum.num 0) ∧
        (predictPrices model dates minDate maxDate minPrice maxPrice).2[i]? = some true) ∧
    ((model.predictOne ((dates[i] - minDate) / (maxDate - minDate))
          * (maxPrice - minPrice) + minPrice).isNaN = false →
        (predictPrices model dates minDate maxDate minPrice maxPrice).1[i]?
            = some (model.predictOne ((dates[i] - minDate) / (maxDate - minDate))
                * (maxPrice - minPrice) + minPrice) ∧
        (predictPrices model dates minDate maxDate minPrice maxPrice).2[i]? = some false) := by
  simp only [predictPrices, List.map_map, List.getElem?_map,
    List.getElem?_eq_getElem hi, Option.map_some]
  constructor
  · intro h
    simp [denormOne, h]
  · intro h
    simp [denormOne, h]

/-- Witness for C4: a model that always predicts NaN, on a one-element date
list, emits price 0 with a warning at index 0. -/
theorem predictPrices_nan_policy_witness :
    (predictPrices (TFModel.mk (fun _ => JSNum.nan)) [JSNum.num 0]
        (JSNum.num 0) (JSNum.num 1) (JSNum.num 2) (JSNum.num 3)).1[0]?
        = some (JSNum.num 0) ∧
    (predictPrices (TFModel.mk (fun _ => JSNum.nan)) [JSNum.num 0]
        (JSNum.num 0) (JSNum.num 1) (JSNum.num 2) (JSNum.num 3)).2[0]? = some true :=
  (predictPrices_nan_policy (TFModel.mk (fun _ => JSNum.nan)) [JSNum.num 0]
    (JSNum.num 0) (JSNum.num 1) (JSNum.num 2) (JSNum.num 3) 0 (by decide)).1 (by decide)

/-- Result record of `calculateErrorMetrics`. -/
structure ErrorMetrics where
  mse : ℚ
  rmse : ℝ

/-- Model of the indexed `reduce` inside `calculateErrorMetrics`
(src/prediction.js lines 136-140): left fold over the actual prices carrying
the running index used to look up the predicted price. -/
def mseFold (predictedPrices : List ℚ) : Nat → ℚ → List ℚ → ℚ
  | _, sum, [] => sum
  | index, sum, actual :: rest =>
      let error := actual - predictedPrices.getD index 0
      mseFold predictedPrices (index + 1) (sum + error * error) rest

/-- Model of `calculateErrorMetrics` (src/prediction.js lines 135-147):
MSE is the indexed squared-error fold divided by the length, RMSE is
`Math.sqrt` of the MSE (modelled with the exact real square root). -/
noncomputable def calculateErrorMetrics (actualPrices predictedPrices : List ℚ) :
    ErrorMetrics :=
  let mse := mseFold predictedPrices 0 0 actualPrices / (actualPrices.length : ℚ)
  { mse := mse, rmse := Real.sqrt (mse : ℝ) }

/-- The mean of the squared per-index differences, as the specification words
the MSE contract. -/
def meanSquaredDiff (actual predicted : List ℚ) : ℚ :=
  (List.zipWith (fun a p => (a - p) * (a - p)) actual predicted).sum
    / (actual.length : ℚ)

theorem mseFold_eq_zipWith_sum (p : List ℚ) :
    ∀ (a : List ℚ) (i : Nat) (s : ℚ), i + a.length ≤ p.length →
      mseFold p i s a = s + (List.zipWith (fun x y => (x - y) * (x - y)) a (p.drop i)).sum := by
  intro a
  induction a with
  | nil => intro i s _; simp [mseFold]
  | cons x xs ih =>
      intro i s h
      have hi : i < p.length := by simp at h; omega
      rw [mseFold]
      have hdrop : p.drop i = p[i] :: p.drop (i + 1) := List.drop_eq_getElem_cons hi
      have hgetD : p.getD i 0 = p[i] := List.getD_eq_getElem p 0 hi
      rw [ih (i + 1) _ (by simp at h ⊢; omega), hdrop, List.zipWith_cons_cons,
        List.sum_cons, hgetD]
      ring

/-- C6: for equal-length nonempty sequences, `calculateErrorMetrics` returns
as MSE the mean of the squared per-index differences, the MSE is symmetric in
the two arguments, and the RMSE is exactly the square root of the MSE. -/
theorem calculateErrorMetrics_spec (a p : List ℚ) (hlen : a.length = p.length)
    (hne : a ≠ []) :
    (calculateErrorMetrics a p).mse = meanSquaredDiff a p ∧
    (calculateErrorMetrics a p).mse = (calculateErrorMetrics p a).mse ∧
    (calculateErrorMetrics a p).rmse
      = Real.sqrt (((calculateErrorMetrics a p).mse : ℚ) : ℝ) := by
  have h1 : (calculateErrorMetrics a p).mse = meanSquaredDiff a p := by
    simp only [calculateErrorMetrics, meanSquaredDiff]
    rw [mseFold_eq_zipWith_sum p a 0 0 (by omega), List.drop_zero, zero_add]
  have h2 : (calculateErrorMetrics p a).mse = meanSquaredDiff p a := by
    simp only [calculateErrorMetrics, meanSquaredDiff]
    rw [mseFold_eq_zipWith_sum a p 0 0 (by omega), List.drop_zero, zero_add]
  refine ⟨h1, ?_, rfl⟩
  rw [h1, h2, meanSquaredDiff, meanSquaredDiff, hlen, List.zipWith_comm]
  have : (fun (y x : ℚ) => (x - y) * (x - y)) = (fun (y x : ℚ) => (y - x) * (y - x)) := by
    funext y x; ring
  rw [this]

/-- Witness for C6 at actual = [1, 2], predicted = [3, 5]. -/
theorem calculateErrorMetrics_spec_witness :
    (calculateErrorMetrics [(1 : ℚ), 2] [3, 5]).mse = meanSquaredDiff [1, 2] [3, 5] ∧
    (calculateErrorMetrics [(1 : ℚ), 2] [3, 5]).mse
      = (calculateErrorMetrics [(3 : ℚ), 5] [1, 2]).mse ∧
    (calculateErrorMetrics [(1 : ℚ), 2] [3, 5]).rmse
      = Real.sqrt (((calculateErrorMetrics [(1 : ℚ), 2] [3, 5]).mse : ℚ) : ℝ) :=
  calculateErrorMetrics_spec [1, 2] [3, 5] (by decide) (by decide)

/-- Model of `row.close.replace(/,/g, "")` (src/prediction.js line 49):
every comma is removed from the string. -/
def stripCommas (s : String) : String :=
  String.mk (s.toList.filter (fun c => c ≠ ','))

/-- Sign handling of the JavaScript `parseFloat` decimal-literal grammar: an
optional leading plus or minus sign. -/
def parseSign : List Char → ℚ × List Char
  | [] => (1, [])
  | c :: t => if c = '-' then (-1, t) else if c = '+' then (1, t) else (1, c :: t)

/-- Longest prefix of decimal digits, together with the rest of the input. -/
def takeDigits : List Char → List Char × List Char
  | [] => ([], [])
  | c :: cs =>
      if c.isDigit then
        let p := takeDigits cs
        (c :: p.1, p.2)
      else ([], c :: cs)

/-- Numeric value of a string of decimal digits, most significant first. -/
def digitsToNat (ds : List Char) : Nat :=
  ds.foldl (fun a c => 10 * a + (c.toNat - 48)) 0

/-- Model of JavaScript `parseFloat` on a character list: parse an optional
sign, an integer digit run, and an optional dot followed by a fraction digit
run, returning NaN when no digit was found.  The exponent part and the
Infinity literal of the full grammar are not modelled (no input of this
program uses them), and leading whitespace is not modelled. -/
def parseFloatChars (cs : List Char) : JSNum :=
  let s1 := parseSign cs
  let p1 := takeDigits s1.2
  match p1.2 with
  | '.' :: t =>
      let fp := (takeDigits t).1
      if p1.1 = [] ∧ fp = [] then JSNum.nan
      else JSNum.num (s1.1 * ((digitsToNat p1.1 : ℚ) + (digitsToNat fp : ℚ) / 10 ^ fp.length))
  | _ => if p1.1 = [] then JSNum.nan else JSNum.num (s1.1 * (digitsToNat p1.1 : ℚ))

/-- Model of JavaScript `parseFloat` on a string. -/
def parseFloatJS (s : String) : JSNum :=
  parseFloatChars s.toList

/-- Model of the price parsing of `prepareData` (src/prediction.js line 49):
`parseFloat(row.close.replace(/,/g, ""))`. -/
def parsePrice (s : String) : JSNum :=
  parseFloatJS (stripCommas s)

theorem takeDigits_append (ds rest : List Char) (h : ∀ c ∈ ds, c.isDigit = true)
    (h2 : ∀ c ∈ rest.head?, c.isDigit = false) :
    takeDigits (ds ++ rest) = (ds, rest) := by
  induction ds with
  | nil =>
      cases rest with
      | nil => rfl
      | cons c t =>
          have := h2 c (by simp)
          simp [takeDigits, this]
  | cons c cs ih =>
      have hc := h c (by simp)
      simp only [List.cons_append, takeDigits, hc, if_true, List.append_eq]
      rw [ih (fun x hx => h x (by simp [hx]))]

theorem takeDigits_all (ds : List Char) (h : ∀ c ∈ ds, c.isDigit = true) :
    takeDigits ds = (ds, []) := by
  have := takeDigits_append ds [] h (by simp)
  simpa using this

theorem parseFloatChars_decimal (ip fp : List Char) (hip : ip ≠ [])
    (hipd : ∀ c ∈ ip, c.isDigit = true) (hfpd : ∀ c ∈ fp, c.isDigit = true) :
    parseFloatChars (ip ++ '.' :: fp)
      = JSNum.num ((digitsToNat ip : ℚ) + (digitsToNat fp : ℚ) / 10 ^ fp.length) := by
  obtain ⟨c, ip', rfl⟩ := List.exists_cons_of_ne_nil hip
  have hc : c.isDigit = true := hipd c (by simp)
  have h1 : c ≠ '-' := fun e => absurd hc (by rw [e]; decide)
  have h2 : c ≠ '+' := fun e => absurd hc (by rw [e]; decide)
  simp only [parseFloatChars, parseSign, List.cons_append, h1, h2, if_false]
  rw [← List.cons_append,
    takeDigits_append (c :: ip') ('.' :: fp) hipd
      (by intro x hx; simp at hx; subst hx; decide)]
  show (if c :: ip' = [] ∧ (takeDigits fp).1 = [] then JSNum.nan
      else JSNum.num (1 * ((digitsToNat (c :: ip') : ℚ)
        + (digitsToNat (takeDigits fp).1 : ℚ) / 10 ^ (takeDigits fp).1.length))) = _
  rw [takeDigits_all fp hfpd]
  simp

theorem parseFloatChars_integer (ip : List Char) (hip : ip ≠ [])
    (hipd : ∀ c ∈ ip, c.isDigit = true) :
    parseFloatChars ip = JSNum.num (digitsToNat ip : ℚ) := by
  obtain ⟨c, ip', rfl⟩ := List.exists_cons_of_ne_nil hip
  have hc : c.isDigit = true := hipd c (by simp)
  have h1 : c ≠ '-' := fun e => absurd hc (by rw [e]; decide)
  have h2 : c ≠ '+' := fun e => absurd hc (by rw [e]; decide)
  simp only [parseFloatChars, parseSign, h1, h2, if_false]
  rw [takeDigits_all (c :: ip') hipd]
  simp

/-- C8: the price parsing of `prepareData` removes every comma from the price
string and parses what remains as a decimal number: whenever the string with
its commas removed reads as digits, or as digits dot digits, `parsePrice`
returns exactly that decimal value.  In particular "1,234.50" parses to
1234.50 (see the witness). -/
theorem parsePrice_spec :
    (∀ (s : String) (ip fp : List Char), ip ≠ [] →
        (∀ c ∈ ip, c.isDigit = true) → (∀ c ∈ fp, c.isDigit = true) →
        s.toList.filter (fun c => c ≠ ',') = ip ++ '.' :: fp →
        parsePrice s
          = JSNum.num ((digitsToNat ip : ℚ) + (digitsToNat fp : ℚ) / 10 ^ fp.length)) ∧
    (∀ (s : String) (ip : List Char), ip ≠ [] →
        (∀ c ∈ ip, c.isDigit = true) →
        s.toList.filter (fun c => c ≠ ',') = ip →
        parsePrice s = JSNum.num (digitsToNat ip : ℚ)) := by
  constructor
  · intro s ip fp hip hipd hfpd hs
    show parseFloatChars (stripCommas s).toList = _
    rw [show (stripCommas s).toList = s.toList.filter (fun c => c ≠ ',') from rfl, hs]
    exact parseFloatChars_decimal ip fp hip hipd hfpd
  · intro s ip hip hipd hs
    show parseFloatChars (stripCommas s).toList = _
    rw [show (stripCommas s).toList = s.toList.filter (fun c => c ≠ ',') from rfl, hs]
    exact parseFloatChars_integer ip hip hipd

/-- Witness for C8: the price string "1,234.50" parses to 1234.50. -/
theorem parsePrice_spec_witness : parsePrice "1,234.50" = JSNum.num (2469 / 2) := by
  have h := parsePrice_spec.1 "1,234.50" ['1', '2', '3', '4'] ['5', '0']
    (by decide) (by decide) (by decide) (by decide)
  rw [h, show digitsToNat ['1', '2', '3', '4'] = 1234 from by decide,
    show digitsToNat ['5', '0'] = 50 from by decide]
  norm_num

/-!
Calendar model.  Dates are epoch day numbers (days since 1970-01-01).
`makeDay` is the Gregorian day numbering computed by the ECMAScript MakeDay
operation (used by the `new Date(year, month, day)` constructor and by the
parsing of ISO date strings); `civilFromDay` is the inverse field
decomposition used by `getFullYear`, `getMonth`, `getDate` and
`toISOString` (host time zone UTC).  All divisions are floor divisions with
positive divisors, which is what the Lean integer division computes.
-/

def isLeapYear (y : Int) : Bool :=
  (y % 4 = 0 && y % 100 ≠ 0) || y % 400 = 0

def monthLength (y m : Int) : Int :=
  if m = 2 then (if isLeapYear y then 29 else 28)
  else if m = 4 ∨ m = 6 ∨ m = 9 ∨ m = 11 then 30
  else 31

def makeDay (y m d : Int) : Int :=
  let yShift := y - (if m ≤ 2 then 1 else 0)
  let era := yShift / 400
  let yoe := yShift - era * 400
  let mp := (m + 9) % 12
  let doy := (153 * mp + 2) / 5 + d - 1
  let doe := yoe * 365 + yoe / 4 - yoe / 100 + doy
  era * 146097 + doe - 719468

def civilFromDay (day : Int) : Int × Int × Int :=
  let z := day + 719468
  let era := z / 146097
  let doe := z - era * 146097
  let yoe := (doe - doe / 1460 + doe / 36524 - doe / 146096) / 365
  let yShift := yoe + era * 400
  let doy := doe - (365 * yoe + yoe / 4 - yoe / 100)
  let mp := (5 * doy + 2) / 153
  let d := doy - (153 * mp + 2) / 5 + 1
  let m := mp + (if mp < 10 then 3 else -9)
  (yShift + (if m ≤ 2 then 1 else 0), m, d)

set_option maxHeartbeats 4000000 in
theorem yoe_inversion (yoe doy doe : Int) (h1 : 0 ≤ yoe) (h2 : yoe ≤ 399)
    (hdoy : 0 ≤ doy)
    (hdoy2 : doy ≤ 364 ∨ (doy = 365 ∧ (yoe + 1) % 4 = 0 ∧ ((yoe + 1) % 100 ≠ 0 ∨ yoe = 399)))
    (hdoe : doe = yoe * 365 + yoe / 4 - yoe / 100 + doy) :
    (doe - doe / 1460 + doe / 36524 - doe / 146096) / 365 = yoe := by
  interval_cases yoe <;> omega

theorem civilFromDay_decomp (era yoe mp doy doe d m yv : Int)
    (h1 : 0 ≤ era)
    (h2 : 0 ≤ yoe) (h3 : yoe ≤ 399)
    (h4 : 0 ≤ mp) (h5 : mp ≤ 11)
    (h6 : doy = (153 * mp + 2) / 5 + d - 1)
    (h7 : 1 ≤ d) (h8 : d ≤ (153 * (mp + 1) + 2) / 5 - (153 * mp + 2) / 5)
    (h9 : doy ≤ 364 ∨ (doy = 365 ∧ (yoe + 1) % 4 = 0 ∧ ((yoe + 1) % 100 ≠ 0 ∨ yoe = 399)))
    (hdoe : doe = yoe * 365 + yoe / 4 - yoe / 100 + doy)
    (h10 : m = mp + (if mp < 10 then 3 else -9))
    (h11 : yv = yoe + era * 400 + (if m ≤ 2 then 1 else 0)) :
    civilFromDay (era * 146097 + doe - 719468) = (yv, m, d) := by
  have hdoy0 : 0 ≤ doy := by omega
  have hdoe1 : 0 ≤ doe := by omega
  have hdoe2 : doe ≤ 146096 := by omega
  simp only [civilFromDay]
  rw [show era * 146097 + doe - 719468 + 719468 = era * 146097 + doe from by ring]
  rw [show (era * 146097 + doe) / 146097 = era from by omega]
  rw [show era * 146097 + doe - era * 146097 = doe from by ring]
  rw [yoe_inversion yoe doy doe h2 h3 hdoy0 h9 hdoe]
  rw [show doe - (365 * yoe + yoe / 4 - yoe / 100) = doy from by omega]
  rw [show (5 * doy + 2) / 153 = mp from by interval_cases mp <;> omega]
  rw [show doy - (153 * mp + 2) / 5 + 1 = d from by omega]
  rw [← h10, h11]

theorem monthLength_le_slot (y m : Int) (hm : 1 ≤ m) (hm2 : m ≤ 12) :
    monthLength y m ≤ (153 * ((m + 9) % 12 + 1) + 2) / 5 - (153 * ((m + 9) % 12) + 2) / 5 := by
  have hml2 : monthLength y 2 ≤ 29 := by
    rw [monthLength]
    norm_num
    split <;> omega
  interval_cases m <;> first
    | omega
    | (rw [monthLength]; norm_num)

theorem civilFromDay_makeDay (y m d : Int) (hy : 1 ≤ y) (hy2 : y ≤ 9999)
    (hm : 1 ≤ m) (hm2 : m ≤ 12) (hd : 1 ≤ d) (hd2 : d ≤ monthLength y m) :
    civilFromDay (makeDay y m d) = (y, m, d) := by
  have hslot := monthLength_le_slot y m hm hm2
  rcases le_or_lt m 2 with hc | hc
  · -- January or February: the shifted year is y - 1
    have hmp : (m + 9) % 12 = m + 9 := by omega
    have hml2 : monthLength y 2 ≤ (if isLeapYear y then 29 else 28) := by
      rw [monthLength]; norm_num
    have h29 : d = 29 → m = 2 → isLeapYear y = true := by
      intro hd29 hm2'
      by_contra hnl
      simp only [Bool.not_eq_true] at hnl
      rw [hm2', monthLength, if_pos rfl, hnl, if_neg (by simp)] at hd2
      omega
    have hleapmod : isLeapYear y = true → (y % 4 = 0 ∧ y % 100 ≠ 0) ∨ y % 400 = 0 := by
      intro h
      simpa [isLeapYear, Bool.or_eq_true, Bool.and_eq_true, decide_eq_true_eq] using h
    simp only [makeDay]
    rw [if_pos hc]
    refine civilFromDay_decomp ((y - 1) / 400) (y - 1 - (y - 1) / 400 * 400) ((m + 9) % 12)
      ((153 * ((m + 9) % 12) + 2) / 5 + d - 1)
      ((y - 1 - (y - 1) / 400 * 400) * 365 + (y - 1 - (y - 1) / 400 * 400) / 4
        - (y - 1 - (y - 1) / 400 * 400) / 100 + ((153 * ((m + 9) % 12) + 2) / 5 + d - 1))
      d m y (by omega) (by omega) (by omega) (by omega) (by omega) rfl hd
      (le_trans hd2 hslot) ?_ rfl ?_ ?_
    · by_cases hdc : (153 * ((m + 9) % 12) + 2) / 5 + d - 1 ≤ 364
      · exact Or.inl hdc
      · right
        have hm2' : m = 2 := by omega
        have hd29 : d = 29 := by
          have h1 := hd2
          rw [hm2'] at h1
          have h2 : (if isLeapYear y then (29 : Int) else 28) ≤ 29 := by split <;> omega
          omega
        have hmods := hleapmod (h29 hd29 hm2')
        refine ⟨by omega, by omega, by omega⟩
    · rw [hmp, if_neg (by omega)]
      ring
    · rw [if_pos hc]
      omega
  · -- March to December: the shifted year is y
    have hmp : (m + 9) % 12 = m - 3 := by omega
    simp only [makeDay]
    rw [if_neg (by omega), sub_zero]
    refine civilFromDay_decomp (y / 400) (y - y / 400 * 400) ((m + 9) % 12)
      ((153 * ((m + 9) % 12) + 2) / 5 + d - 1)
      ((y - y / 400 * 400) * 365 + (y - y / 400 * 400) / 4
        - (y - y / 400 * 400) / 100 + ((153 * ((m + 9) % 12) + 2) / 5 + d - 1))
      d m y (by omega) (by omega) (by omega) (by omega) (by omega) rfl hd
      (le_trans hd2 hslot) ?_ rfl ?_ ?_
    · left
      omega
    · rw [hmp, if_pos (by omega)]
      ring
    · rw [if_neg (by omega)]
      omega

/-- Decimal digits of n, most significant first, by fuel-indexed division
(the fuel n itself always suffices since n / 10 < n for positive n). -/
def natDecAux : Nat → Nat → List Char
  | 0, _ => []
  | fuel + 1, n =>
      if n = 0 then [] else natDecAux fuel (n / 10) ++ [Nat.digitChar (n % 10)]

/-- Decimal rendering of a natural number, as JavaScript ToString produces. -/
def natToDec (n : Nat) : String :=
  if n = 0 then "0" else String.mk (natDecAux n n)

/-- Decimal rendering of an integer, as JavaScript ToString produces. -/
def intToDec (i : Int) : String :=
  if i < 0 then "-" ++ natToDec i.natAbs else natToDec i.toNat

/-- Model of `String.prototype.padStart(w, "0")`. -/
def padStartZeros (w : Nat) (s : String) : String :=
  String.mk (List.replicate (w - s.length) '0') ++ s

/-- Two-digit zero padding used for months and days. -/
def pad2 (i : Int) : String :=
  padStartZeros 2 (intToDec i)

/-- The date part of `toISOString` of an epoch day (host time zone UTC):
four-digit year, two-digit month and day. -/
def toISODateString (day : Int) : String :=
  padStartZeros 4 (intToDec (civilFromDay day).1) ++ "-"
    ++ pad2 (civilFromDay day).2.1 ++ "-" ++ pad2 (civilFromDay day).2.2

/-- ECMAScript WeekDay operation: 0 is Sunday, 6 is Saturday (epoch day 0,
1970-01-01, was a Thursday), as returned by `getDay` with a UTC host. -/
def weekDay (day : Int) : Int :=
  (day + 4) % 7

/-- The loop test of `getNext30Weekdays` (src/prediction.js line 179):
`dayOfWeek !== 0 && dayOfWeek !== 6`. -/
def isWeekdayDay (day : Int) : Bool :=
  weekDay day ≠ 0 && weekDay day ≠ 6

/-- Fuel-indexed model of the while loop of `getNext30Weekdays`
(src/prediction.js lines 177-184): one unit of fuel per loop iteration,
`need` entries still missing; a weekday is pushed and the day always
advances by one.  The loop itself is unbounded; `weekdayLoop_terminates`
shows that 42 units of fuel already produce the full result. -/
def weekdayLoop : Nat → Nat → Int → List Int
  | 0, _, _ => []
  | _ + 1, 0, _ => []
  | fuel + 1, need + 1, day =>
      if isWeekdayDay day then day :: weekdayLoop fuel need (day + 1)
      else weekdayLoop fuel (need + 1) (day + 1)

/-- The epoch days pushed by `getNext30Weekdays` (src/prediction.js
lines 172-188), with the fuel fixed at the proven bound of 42 iterations. -/
def getNext30WeekdayDays (startDate : Int) : List Int :=
  weekdayLoop 42 30 startDate

/-- Model of `getNext30Weekdays`: the pushed days rendered as ISO date
strings via `toISOString().split("T")[0]`. -/
def getNext30Weekdays (startDate : Int) : List String :=
  (getNext30WeekdayDays startDate).map toISODateString

theorem weekdayLoop_zero_need (f : Nat) (d : Int) : weekdayLoop f 0 d = [] := by
  cases f <;> rfl

theorem isWeekdayDay_shift (d : Int) (k : Int) :
    isWeekdayDay (d + 7 * k) = isWeekdayDay d := by
  have h : weekDay (d + 7 * k) = weekDay d := by
    rw [weekDay, weekDay]
    omega
  rw [isWeekdayDay, isWeekdayDay, h]

theorem weekdayLoop_shift (k : Int) :
    ∀ (f n : Nat) (d : Int),
      weekdayLoop f n (d + 7 * k) = (weekdayLoop f n d).map (fun x => x + 7 * k) := by
  intro f
  induction f with
  | zero => intro n d; rfl
  | succ f ih =>
      intro n d
      cases n with
      | zero => rfl
      | succ n =>
          rw [weekdayLoop, weekdayLoop, isWeekdayDay_shift]
          by_cases h : isWeekdayDay d = true
          · rw [if_pos h, if_pos h, List.map_cons,
              show d + 7 * k + 1 = d + 1 + 7 * k from by ring, ih]
          · rw [if_neg h, if_neg h,
              show d + 7 * k + 1 = d + 1 + 7 * k from by ring, ih]

theorem weekdayLoop_length (d : Int) : (weekdayLoop 42 30 d).length = 30 := by
  have hsplit : d = d % 7 + 7 * (d / 7) := by omega
  rw [hsplit, weekdayLoop_shift, List.length_map]
  have h0 : 0 ≤ d % 7 := by omega
  have h1 : d % 7 < 7 := by omega
  generalize hr : d % 7 = r at h0 h1
  interval_cases r <;> decide

theorem weekdayLoop_mem_lower :
    ∀ (f n : Nat) (d : Int), ∀ x ∈ weekdayLoop f n d, d ≤ x := by
  intro f
  induction f with
  | zero => intro n d x hx; simp [weekdayLoop] at hx
  | succ f ih =>
      intro n d x hx
      cases n with
      | zero => simp [weekdayLoop] at hx
      | succ n =>
          rw [weekdayLoop] at hx
          by_cases h : isWeekdayDay d = true
          · rw [if_pos h] at hx
            rcases List.mem_cons.mp hx with rfl | hx
            · omega
            · have := ih n (d + 1) x hx; omega
          · rw [if_neg h] at hx
            have := ih (n + 1) (d + 1) x hx; omega

theorem weekdayLoop_all_weekday :
    ∀ (f n : Nat) (d : Int), ∀ x ∈ weekdayLoop f n d, isWeekdayDay x = true := by
  intro f
  induction f with
  | zero => intro n d x hx; simp [weekdayLoop] at hx
  | succ f ih =>
      intro n d x hx
      cases n with
      | zero => simp [weekdayLoop] at hx
      | succ n =>
          rw [weekdayLoop] at hx
          by_cases h : isWeekdayDay d = true
          · rw [if_pos h] at hx
            rcases List.mem_cons.mp hx with rfl | hx
            · exact h
            · exact ih n (d + 1) x hx
          · rw [if_neg h] at hx
            exact ih (n + 1) (d + 1) x hx

theorem weekdayLoop_head_gap :
    ∀ (f n : Nat) (d : Int), ∀ y ∈ (weekdayLoop f n d).head?,
      ∀ c : Int, d ≤ c → c < y → isWeekdayDay c = false := by
  intro f
  induction f with
  | zero => intro n d y hy; simp [weekdayLoop] at hy
  | succ f ih =>
      intro n d y hy c hc1 hc2
      cases n with
      | zero => simp [weekdayLoop] at hy
      | succ n =>
          rw [weekdayLoop] at hy
          by_cases h : isWeekdayDay d = true
          · rw [if_pos h] at hy
            simp only [List.head?_cons, Option.mem_def, Option.some.injEq] at hy
            omega
          · rw [if_neg h] at hy
            rcases eq_or_lt_of_le hc1 with rfl | hlt
            · simpa using h
            · exact ih (n + 1) (d + 1) y hy c (by omega) hc2

theorem weekdayLoop_chain :
    ∀ (f n : Nat) (d : Int),
      List.Chain' (fun a b => a < b ∧ ∀ c : Int, a < c → c < b → isWeekdayDay c = false)
        (weekdayLoop f n d) := by
  intro f
  induction f with
  | zero => intro n d; simp [weekdayLoop]
  | succ f ih =>
      intro n d
      cases n with
      | zero => simp [weekdayLoop]
      | succ n =>
          rw [weekdayLoop]
          by_cases h : isWeekdayDay d = true
          · rw [if_pos h]
            refine List.chain'_cons'.mpr ⟨?_, ih n (d + 1)⟩
            intro y hy
            have hmem : y ∈ weekdayLoop f n (d + 1) := List.mem_of_mem_head? hy
            have hle : d + 1 ≤ y := weekdayLoop_mem_lower f n (d + 1) y hmem
            refine ⟨by omega, ?_⟩
            intro c hc1 hc2
            exact weekdayLoop_head_gap f n (d + 1) y hy c (by omega) hc2
          · rw [if_neg h]
            exact ih (n + 1) (d + 1)

/-- C1: for every start date, `getNext30Weekdays` returns exactly 30 date
strings; the underlying pushed days are all weekdays (never Saturday or
Sunday), strictly increasing, with every day skipped between two consecutive
entries being a weekend day; the scan starts at the start date inclusive
(every entry is at or after it, and if it is itself a weekday it is the
first entry). -/
theorem getNext30Weekdays_spec (d : Int) :
    (getNext30Weekdays d).length = 30 ∧
    getNext30Weekdays d = (getNext30WeekdayDays d).map toISODateString ∧
    (∀ x ∈ getNext30WeekdayDays d, isWeekdayDay x = true) ∧
    List.Chain' (fun a b => a < b ∧ ∀ c : Int, a < c → c < b → isWeekdayDay c = false)
      (getNext30WeekdayDays d) ∧
    (∀ x ∈ getNext30WeekdayDays d, d ≤ x) ∧
    (isWeekdayDay d = true → (getNext30WeekdayDays d).head? = some d) := by
  refine ⟨?_, rfl, ?_, ?_, ?_, ?_⟩
  · rw [getNext30Weekdays, List.length_map, getNext30WeekdayDays, weekdayLoop_length]
  · exact weekdayLoop_all_weekday 42 30 d
  · exact weekdayLoop_chain 42 30 d
  · exact weekdayLoop_mem_lower 42 30 d
  · intro h
    rw [getNext30WeekdayDays, weekdayLoop, if_pos h, List.head?_cons]

theorem weekdayLoop_split (b : Nat) :
    ∀ (a n : Nat) (d : Int),
      weekdayLoop (a + b) n d
        = weekdayLoop a n d
          ++ weekdayLoop b (n - (weekdayLoop a n d).length) (d + a) := by
  intro a
  induction a with
  | zero =>
      intro n d
      simp [weekdayLoop]
  | succ a ih =>
      intro n d
      rw [show a + 1 + b = (a + b) + 1 from by omega]
      cases n with
      | zero =>
          simp [weekdayLoop_zero_need]
      | succ n =>
          rw [weekdayLoop, weekdayLoop]
          by_cases h : isWeekdayDay d = true
          · rw [if_pos h, if_pos h, ih n (d + 1), List.cons_append, List.length_cons,
              Nat.succ_sub_succ, show d + 1 + (a : Int) = d + (a + 1 : Nat) from by
                push_cast; ring]
          · rw [if_neg h, if_neg h, ih (n + 1) (d + 1),
              show d + 1 + (a : Int) = d + (a + 1 : Nat) from by push_cast; ring]

/-- C10: the while loop of `getNext30Weekdays` terminates for every start
date: 42 loop iterations always suffice to collect the 30 weekday entries
(every window of 7 consecutive days contains exactly 5 weekdays), so running
the loop with any iteration budget of at least 42 returns the same full
30-entry result. -/
theorem weekdayLoop_terminates (d : Int) (f : Nat) (hf : 42 ≤ f) :
    weekdayLoop f 30 d = getNext30WeekdayDays d ∧
    (getNext30WeekdayDays d).length = 30 := by
  obtain ⟨b, rfl⟩ := Nat.exists_eq_add_of_le hf
  refine ⟨?_, weekdayLoop_length d⟩
  rw [getNext30WeekdayDays, weekdayLoop_split b 42 30 d, weekdayLoop_length,
    Nat.sub_self, weekdayLoop_zero_need, List.append_nil]

/-- Witness for C10 at start date 0 (1970-01-01, a Thursday) with fuel 50. -/
theorem weekdayLoop_terminates_witness :
    weekdayLoop 50 30 0 = getNext30WeekdayDays 0 ∧
    (getNext30WeekdayDays 0).length = 30 :=
  weekdayLoop_terminates 0 50 (by omega)

/-- Model of JavaScript `String.prototype.split` with a one-character
separator: splits into the (possibly empty) segments between separator
occurrences. -/
def splitOnChar (sep : Char) : List Char → List (List Char)
  | [] => [[]]
  | c :: cs =>
      if c = sep then [] :: splitOnChar sep cs
      else
        match splitOnChar sep cs with
        | [] => [[c]]
        | g :: gs => (c :: g) :: gs

theorem splitOnChar_no_sep (sep : Char) (a : List Char) (h : ∀ c ∈ a, c ≠ sep) :
    splitOnChar sep a = [a] := by
  induction a with
  | nil => rfl
  | cons c cs ih =>
      rw [splitOnChar, if_neg (h c (by simp)), ih (fun x hx => h x (by simp [hx]))]

theorem splitOnChar_append_sep (sep : Char) (a rest : List Char)
    (h : ∀ c ∈ a, c ≠ sep) :
    splitOnChar sep (a ++ sep :: rest) = a :: splitOnChar sep rest := by
  induction a with
  | nil => simp [splitOnChar]
  | cons c cs ih =>
      rw [List.cons_append, splitOnChar, if_neg (h c (by simp)),
        ih (fun x hx => h x (by simp [hx]))]

/-- Model of `Date.parse(monthStr + " 1, 2020").getMonth()`
(src/prediction.js line 29) for the twelve English three-letter month
abbreviations; any other month string results in an invalid date, whose
`getMonth` is NaN, modelled as none. -/
def monthAbbrevIndex (s : String) : Option Int :=
  if s = "Jan" then some 0
  else if s = "Feb" then some 1
  else if s = "Mar" then some 2
  else if s = "Apr" then some 3
  else if s = "May" then some 4
  else if s = "Jun" then some 5
  else if s = "Jul" then some 6
  else if s = "Aug" then some 7
  else if s = "Sep" then some 8
  else if s = "Oct" then some 9
  else if s = "Nov" then some 10
  else if s = "Dec" then some 11
  else none

/-- Model of JavaScript ToNumber on a segment string as used for the year and
day arguments of the Date constructor: the empty string converts to 0, a
digit string to its value, anything else (and a missing segment) to NaN,
modelled as none. -/
def parseDigits (cs : List Char) : Option Nat :=
  if cs = [] then some 0
  else if cs.all Char.isDigit then some (digitsToNat cs) else none

/-- Model of `new Date(year, monthIndex, day)` with finite numeric arguments
(host time zone UTC): the ECMAScript two-digit-year rule maps years 0..99 to
1900..1999, and MakeDay normalizes month and day overflow (makeDay is linear
in its day argument, which is exactly the MakeDay overflow behaviour). -/
def jsMakeDay (y m d : Int) : Int :=
  let yr := if 0 ≤ y ∧ y ≤ 99 then 1900 + y else y
  makeDay (yr + m / 12) (m % 12 + 1) d

/-- Model of `formatDateToISO` (src/prediction.js lines 27-40): split the
input on "-" into day, month abbreviation and year, resolve the month index,
build the date, and render its fields as year, two-digit month and two-digit
day.  When any component is NaN the date is invalid and every rendered field
is the string "NaN". -/
def formatDateToISO (dateStr : String) : String :=
  let parts := splitOnChar '-' dateStr.toList
  let monthIdx : Option Int := parts[1]?.bind (fun ms => monthAbbrevIndex (String.mk ms))
  let yearNum : Option Int := (parts[2]?.bind parseDigits).map (fun n => (n : Int))
  let dayNum : Option Int := (parts[0]?.bind parseDigits).map (fun n => (n : Int))
  match monthIdx, yearNum, dayNum with
  | some m, some y, some d =>
      let ed := jsMakeDay y m d
      intToDec (civilFromDay ed).1 ++ "-" ++ pad2 (civilFromDay ed).2.1 ++ "-"
        ++ pad2 (civilFromDay ed).2.2
  | _, _, _ => "NaN-NaN-NaN"

example : formatDateToISO "05-Apr-2024" = "2024-04-05" := by decide
example : formatDateToISO "31-May-2024" = "2024-05-31" := by decide
example : formatDateToISO "05-Foo-2024" = "NaN-NaN-NaN" := by decide
example : formatDateToISO "05-Apr-0024" = "1924-04-05" := by decide

theorem digitChar_isDigit (m : Nat) (h : m < 10) : (Nat.digitChar m).isDigit = true := by
  interval_cases m <;> decide

theorem digitChar_toNat (m : Nat) (h : m < 10) : (Nat.digitChar m).toNat - 48 = m := by
  interval_cases m <;> decide

theorem natDecAux_digits :
    ∀ (fuel n : Nat), ∀ c ∈ natDecAux fuel n, c.isDigit = true := by
  intro fuel
  induction fuel with
  | zero => intro n c hc; simp [natDecAux] at hc
  | succ fuel ih =>
      intro n c hc
      rw [natDecAux] at hc
      by_cases h : n = 0
      · rw [if_pos h] at hc; simp at hc
      · rw [if_neg h] at hc
        rcases List.mem_append.mp hc with h1 | h1
        · exact ih (n / 10) c h1
        · simp at h1
          subst h1
          exact digitChar_isDigit _ (Nat.mod_lt _ (by omega))

theorem natToDec_digits (n : Nat) : ∀ c ∈ (natToDec n).toList, c.isDigit = true := by
  rw [natToDec]
  by_cases h : n = 0
  · rw [if_pos h]; decide
  · rw [if_neg h]
    exact natDecAux_digits n n

theorem digitsToNat_append_digit (xs : List Char) (c : Char) :
    digitsToNat (xs ++ [c]) = 10 * digitsToNat xs + (c.toNat - 48) := by
  rw [digitsToNat, digitsToNat, List.foldl_append]
  rfl

theorem natDecAux_val : ∀ (fuel n : Nat), n ≤ fuel → digitsToNat (natDecAux fuel n) = n := by
  intro fuel
  induction fuel with
  | zero => intro n h; interval_cases n; rfl
  | succ fuel ih =>
      intro n h
      rw [natDecAux]
      by_cases h0 : n = 0
      · rw [if_pos h0, h0]; rfl
      · rw [if_neg h0, digitsToNat_append_digit,
          ih (n / 10) (by omega), digitChar_toNat _ (Nat.mod_lt _ (by omega))]
        omega

theorem natDecAux_ne_nil (fuel n : Nat) (h1 : n ≠ 0) (h2 : n ≤ fuel) :
    natDecAux fuel n ≠ [] := by
  cases fuel with
  | zero => omega
  | succ fuel =>
      rw [natDecAux, if_neg h1]
      simp

theorem parseDigits_natToDec (n : Nat) : parseDigits (natToDec n).toList = some n := by
  by_cases h : n = 0
  · subst h; decide
  · rw [natToDec, if_neg h]
    rw [show (String.mk (natDecAux n n)).toList = natDecAux n n from rfl, parseDigits,
      if_neg (natDecAux_ne_nil n n h (le_refl n)),
      if_pos (List.all_eq_true.mpr (fun c hc => natDecAux_digits n n c hc)),
      natDecAux_val n n (le_refl n)]

theorem digitsToNat_leading_zeros (k : Nat) (ds : List Char) :
    digitsToNat (List.replicate k '0' ++ ds) = digitsToNat ds := by
  induction k with
  | zero => rfl
  | succ k ih =>
      rw [List.replicate_succ, List.cons_append]
      show digitsToNat (List.replicate k '0' ++ ds) = _
      exact ih

theorem parseDigits_pad2 (i : Int) (h : 0 ≤ i) :
    parseDigits (pad2 i).toList = some i.toNat := by
  rw [pad2, intToDec, if_neg (by omega)]
  rw [padStartZeros]
  rw [show (String.mk (List.replicate (2 - (natToDec i.toNat).length) '0') ++ natToDec i.toNat).toList
      = List.replicate (2 - (natToDec i.toNat).length) '0' ++ (natToDec i.toNat).toList from rfl]
  rw [parseDigits]
  have h3 : (natToDec i.toNat).toList ≠ [] := by
    rw [natToDec]
    by_cases h0 : i.toNat = 0
    · rw [if_pos h0]; decide
    · rw [if_neg h0]
      exact natDecAux_ne_nil _ _ h0 (le_refl _)
  have hne : List.replicate (2 - (natToDec i.toNat).length) '0' ++ (natToDec i.toNat).toList ≠ [] := by
    intro hcon
    exact h3 (List.append_eq_nil.mp hcon).2
  rw [if_neg hne]
  have hall : (List.replicate (2 - (natToDec i.toNat).length) '0'
      ++ (natToDec i.toNat).toList).all Char.isDigit = true := by
    rw [List.all_eq_true]
    intro c hc
    rcases List.mem_append.mp hc with h1 | h1
    · rw [List.eq_of_mem_replicate h1]; decide
    · exact natToDec_digits _ c h1
  rw [if_pos hall, digitsToNat_leading_zeros]
  have hval : digitsToNat (natToDec i.toNat).toList = i.toNat := by
    rw [natToDec]
    by_cases h0 : i.toNat = 0
    · rw [if_pos h0, h0]; rfl
    · rw [if_neg h0]
      exact natDecAux_val i.toNat i.toNat (le_refl _)
  rw [hval]

theorem monthAbbrevIndex_inv (mm : String) (mi : Int)
    (hm : monthAbbrevIndex mm = some mi) :
    0 ≤ mi ∧ mi ≤ 11 ∧ ∀ c ∈ mm.toList, c ≠ '-' := by
  rw [monthAbbrevIndex] at hm
  by_cases h1 : mm = "Jan"
  · rw [if_pos h1] at hm
    injection hm with hinj
    subst hinj
    subst h1
    decide
  · rw [if_neg h1] at hm
    by_cases h2 : mm = "Feb"
    · rw [if_pos h2] at hm
      injection hm with hinj
      subst hinj
      subst h2
      decide
    · rw [if_neg h2] at hm
      by_cases h3 : mm = "Mar"
      · rw [if_pos h3] at hm
        injection hm with hinj
        subst hinj
        subst h3
        decide
      · rw [if_neg h3] at hm
        by_cases h4 : mm = "Apr"
        · rw [if_pos h4] at hm
          injection hm with hinj
          subst hinj
          subst h4
          decide
        · rw [if_neg h4] at hm
          by_cases h5 : mm = "May"
          · rw [if_pos h5] at hm
            injection hm with hinj
            subst hinj
            subst h5
            decide
          · rw [if_neg h5] at hm
            by_cases h6 : mm = "Jun"
            · rw [if_pos h6] at hm
              injection hm with hinj
              subst hinj
              subst h6
              decide
            · rw [if_neg h6] at hm
              by_cases h7 : mm = "Jul"
              · rw [if_pos h7] at hm
                injection hm with hinj
                subst hinj
                subst h7
                decide
              · rw [if_neg h7] at hm
                by_cases h8 : mm = "Aug"
                · rw [if_pos h8] at hm
                  injection hm with hinj
                  subst hinj
                  subst h8
                  decide
                · rw [if_neg h8] at hm
                  by_cases h9 : mm = "Sep"
                  · rw [if_pos h9] at hm
                    injection hm with hinj
                    subst hinj
                    subst h9
                    decide
                  · rw [if_neg h9] at hm
                    by_cases h10 : mm = "Oct"
                    · rw [if_pos h10] at hm
                      injection hm with hinj
                      subst hinj
                      subst h10
                      decide
                    · rw [if_neg h10] at hm
                      by_cases h11 : mm = "Nov"
                      · rw [if_pos h11] at hm
                        injection hm with hinj
                        subst hinj
                        subst h11
                        decide
                      · rw [if_neg h11] at hm
                        by_cases h12 : mm = "Dec"
                        · rw [if_pos h12] at hm
                          injection hm with hinj
                          subst hinj
                          subst h12
                          decide
                        · rw [if_neg h12] at hm
                          exact absurd hm (by simp)

theorem pad2_no_dash (i : Int) (h : 0 ≤ i) : ∀ c ∈ (pad2 i).toList, c ≠ '-' := by
  intro c hc
  rw [pad2, intToDec, if_neg (by omega), padStartZeros] at hc
  rcases List.mem_append.mp hc with h1 | h1
  · rw [List.eq_of_mem_replicate h1]; decide
  · have := natToDec_digits i.toNat c h1
    intro hcon
    rw [hcon] at this
    exact absurd this (by decide)

theorem intToDec_no_dash (i : Int) (h : 0 ≤ i) : ∀ c ∈ (intToDec i).toList, c ≠ '-' := by
  intro c hc
  rw [intToDec, if_neg (by omega)] at hc
  have := natToDec_digits i.toNat c hc
  intro hcon
  rw [hcon] at this
  exact absurd this (by decide)

/-- C7 (amended): for a well-formed date string DD-MMM-YYYY whose month field
is one of the twelve English three-letter abbreviations, whose day is valid
for that month, and whose year lies between 1000 and 9999, `formatDateToISO`
resolves the abbreviation to the month index in 0..11, builds that same
calendar date, and renders it as YYYY-MM-DD with two-digit zero-padded month
and day.  (For years below 100 the ECMAScript two-digit-year rule shifts the
date to 19YY, see the counterexample theorem, which is why the year range is
restricted here.) -/
theorem formatDateToISO_spec (yv mi dv : Int) (mm : String)
    (hy : 1000 ≤ yv) (hy2 : yv ≤ 9999)
    (hm : monthAbbrevIndex mm = some mi)
    (hd : 1 ≤ dv) (hd2 : dv ≤ monthLength yv (mi + 1)) :
    formatDateToISO (pad2 dv ++ "-" ++ mm ++ "-" ++ intToDec yv)
      = intToDec yv ++ "-" ++ pad2 (mi + 1) ++ "-" ++ pad2 dv := by
  obtain ⟨hmi0, hmi11, hmm⟩ := monthAbbrevIndex_inv mm mi hm
  have hlist : (pad2 dv ++ "-" ++ mm ++ "-" ++ intToDec yv).toList
      = (pad2 dv).toList ++ '-' :: (mm.toList ++ '-' :: (intToDec yv).toList) := by
    show (pad2 dv).toList ++ "-".toList ++ mm.toList ++ "-".toList ++ (intToDec yv).toList = _
    simp
  have hsplit : splitOnChar '-' (pad2 dv ++ "-" ++ mm ++ "-" ++ intToDec yv).toList
      = [(pad2 dv).toList, mm.toList, (intToDec yv).toList] := by
    rw [hlist, splitOnChar_append_sep '-' _ _ (pad2_no_dash dv (by omega)),
      splitOnChar_append_sep '-' _ _ hmm,
      splitOnChar_no_sep '-' _ (intToDec_no_dash yv (by omega))]
  have hmonth : (([(pad2 dv).toList, mm.toList, (intToDec yv).toList])[1]?).bind
      (fun ms => monthAbbrevIndex (String.mk ms)) = some mi := hm
  have hyear : (([(pad2 dv).toList, mm.toList, (intToDec yv).toList])[2]?.bind
      parseDigits).map (fun n => (n : Int)) = some yv := by
    show (parseDigits (intToDec yv).toList).map (fun n => (n : Int)) = some yv
    rw [show (intToDec yv).toList = (natToDec yv.toNat).toList from by
        rw [intToDec, if_neg (by omega)],
      parseDigits_natToDec]
    show some ((yv.toNat : Int)) = some yv
    congr 1
    omega
  have hday : (([(pad2 dv).toList, mm.toList, (intToDec yv).toList])[0]?.bind
      parseDigits).map (fun n => (n : Int)) = some dv := by
    show ((parseDigits (pad2 dv).toList).map (fun n => (n : Int))) = some dv
    rw [parseDigits_pad2 dv (by omega)]
    show some ((dv.toNat : Int)) = some dv
    congr 1
    omega
  simp only [formatDateToISO, hsplit]
  rw [hmonth, hyear, hday]
  show intToDec (civilFromDay (jsMakeDay yv mi dv)).1 ++ "-"
      ++ pad2 (civilFromDay (jsMakeDay yv mi dv)).2.1 ++ "-"
      ++ pad2 (civilFromDay (jsMakeDay yv mi dv)).2.2 = _
  have hjs : jsMakeDay yv mi dv = makeDay yv (mi + 1) dv := by
    rw [jsMakeDay]
    rw [if_neg (by omega), show mi / 12 = 0 from by omega, show mi % 12 = mi from by omega,
      add_zero]
  rw [hjs, civilFromDay_makeDay yv (mi + 1) dv (by omega) (by omega) (by omega) (by omega)
    hd hd2]

/-- Counterexample to C7 as stated: for the well-formed date string
"05-Apr-0024" the ECMAScript two-digit-year rule of `new Date(year, month,
day)` maps year 24 to 1924, so `formatDateToISO` does not return the
rendering of the calendar date 0024-04-05 that the string denotes. -/
theorem formatDateToISO_counterexample :
    formatDateToISO "05-Apr-0024" = "1924-04-05" ∧
    formatDateToISO "05-Apr-0024" ≠ "0024-04-05" := by
  decide

/-- Witness for the amended C7 at 05-Apr-2024. -/
theorem formatDateToISO_spec_witness :
    formatDateToISO (pad2 5 ++ "-" ++ "Apr" ++ "-" ++ intToDec 2024)
      = intToDec 2024 ++ "-" ++ pad2 (3 + 1) ++ "-" ++ pad2 5 :=
  formatDateToISO_spec 2024 3 5 "Apr" (by omega) (by omega) (by decide)
    (by omega) (by decide)

/-- Model of `new Date(isoString).getTime()` for the strings produced by
`formatDateToISO`: a string of the ECMAScript date-time string format
YYYY-MM-DD (four digits, two digits, two digits, month 01-12, day 01-31) is
interpreted as a UTC date via MakeDay; any other string is an invalid date.
The result is the epoch day, none meaning an invalid date (NaN time). -/
def parseISODate (s : String) : Option Int :=
  match splitOnChar '-' s.toList with
  | [ys, ms, ds] =>
      if ys.length = 4 ∧ ms.length = 2 ∧ ds.length = 2
          ∧ ys.all Char.isDigit ∧ ms.all Char.isDigit ∧ ds.all Char.isDigit then
        if 1 ≤ digitsToNat ms ∧ digitsToNat ms ≤ 12 ∧ 1 ≤ digitsToNat ds
            ∧ digitsToNat ds ≤ 31 then
          some (makeDay (digitsToNat ys) (digitsToNat ms) (digitsToNat ds))
        else none
      else none
  | _ => none

/-- Model of `getTime` on a possibly invalid date: the timestamp in epoch
milliseconds, or NaN for an invalid date. -/
def getTime (d : Option Int) : JSNum :=
  match d with
  | some day => JSNum.num (86400000 * day)
  | none => JSNum.nan

/-- One step of `Math.max`: NaN propagates, infinities behave as bounds. -/
def max2 : JSNum → JSNum → JSNum
  | JSNum.nan, _ => JSNum.nan
  | _, JSNum.nan => JSNum.nan
  | JSNum.num a, JSNum.num b => JSNum.num (max a b)
  | JSNum.inf s, JSNum.num b => if s then JSNum.inf true else JSNum.num b
  | JSNum.num a, JSNum.inf t => if t then JSNum.inf true else JSNum.num a
  | JSNum.inf s, JSNum.inf t => JSNum.inf (s || t)

/-- One step of `Math.min`: NaN propagates, infinities behave as bounds. -/
def min2 : JSNum → JSNum → JSNum
  | JSNum.nan, _ => JSNum.nan
  | _, JSNum.nan => JSNum.nan
  | JSNum.num a, JSNum.num b => JSNum.num (min a b)
  | JSNum.inf s, JSNum.num b => if s then JSNum.num b else JSNum.inf false
  | JSNum.num a, JSNum.inf t => if t then JSNum.num a else JSNum.inf false
  | JSNum.inf s, JSNum.inf t => JSNum.inf (s && t)

/-- Model of `Math.max(...xs)`: fold from negative infinity. -/
def jsMaxList (l : List JSNum) : JSNum :=
  l.foldl max2 (JSNum.inf false)

/-- Model of `Math.min(...xs)`: fold from positive infinity. -/
def jsMinList (l : List JSNum) : JSNum :=
  l.foldl min2 (JSNum.inf true)

/-- An input row as parsed from the CSV file: the Date column in
DD-MMM-YYYY form and the close column as a price string. -/
structure RawRow where
  Date : String
  close : String

/-- The record returned by `prepareData`: the normalized series (the tensor
contents) and the four scaling parameters. -/
structure PreparedData where
  xs : List JSNum
  ys : List JSNum
  minDate : JSNum
  maxDate : JSNum
  minPrice : JSNum
  maxPrice : JSNum

/-- The parsed timestamp of a row:
`new Date(formatDateToISO(row.Date)).getTime()` (src/prediction.js
lines 46-48). -/
def parseRowDate (r : RawRow) : JSNum :=
  getTime (parseISODate (formatDateToISO r.Date))

/-- Model of `prepareData` (src/prediction.js lines 44-79): parse dates and
prices, throw "Data contains NaN values" if any parsed value is NaN, else
normalize both series with their global min and max. -/
def prepareData (data : List RawRow) : Except String PreparedData :=
  let dates := data.map parseRowDate
  let prices := data.map (fun r => parsePrice r.close)
  if dates.any JSNum.isNaN || prices.any JSNum.isNaN then
    Except.error "Data contains NaN values"
  else
    let maxDate := jsMaxList dates
    let minDate := jsMinList dates
    let maxPrice := jsMaxList prices
    let minPrice := jsMinList prices
    Except.ok
      { xs := dates.map (fun date => normalizeMinMax date minDate maxDate)
        ys := prices.map (fun price => normalizeMinMax price minPrice maxPrice)
        minDate := minDate
        maxDate := maxDate
        minPrice := minPrice
        maxPrice := maxPrice }

/-- C2: `prepareData` fails with the error "Data contains NaN values" exactly
when some parsed timestamp or some parsed price is NaN; the test is on the
raw parsed values, before any normalization, and in the NaN-free case the
returned record normalizes every row (no row is skipped or partially
processed: both series have exactly one entry per input row). -/
theorem prepareData_nan_gate (data : List RawRow) :
    (prepareData data = Except.error "Data contains NaN values" ↔
      ((data.map parseRowDate).any JSNum.isNaN = true ∨
        (data.map (fun r => parsePrice r.close)).any JSNum.isNaN = true)) ∧
    (((data.map parseRowDate).any JSNum.isNaN = false ∧
        (data.map (fun r => parsePrice r.close)).any JSNum.isNaN = false) →
      prepareData data
        = Except.ok
            { xs := (data.map parseRowDate).map (fun date =>
                  normalizeMinMax date (jsMinList (data.map parseRowDate))
                    (jsMaxList (data.map parseRowDate)))
              ys := (data.map (fun r => parsePrice r.close)).map (fun price =>
                  normalizeMinMax price
                    (jsMinList (data.map (fun r => parsePrice r.close)))
                    (jsMaxList (data.map (fun r => parsePrice r.close))))
              minDate := jsMinList (data.map parseRowDate)
              maxDate := jsMaxList (data.map parseRowDate)
              minPrice := jsMinList (data.map (fun r => parsePrice r.close))
              maxPrice := jsMaxList (data.map (fun r => parsePrice r.close)) }) := by
  constructor
  · constructor
    · intro h
      by_cases hc : ((data.map parseRowDate).any JSNum.isNaN
          || (data.map (fun r => parsePrice r.close)).any JSNum.isNaN) = true
      · simpa using hc
      · exfalso
        simp only [prepareData] at h
        rw [if_neg hc] at h
        exact Except.noConfusion h
    · intro h
      have hc : ((data.map parseRowDate).any JSNum.isNaN
          || (data.map (fun r => parsePrice r.close)).any JSNum.isNaN) = true := by
        rcases h with h | h <;> simp [h]
      simp only [prepareData]
      rw [if_pos hc]
  · rintro ⟨h1, h2⟩
    have hc : ¬ (((data.map parseRowDate).any JSNum.isNaN
        || (data.map (fun r => parsePrice r.close)).any JSNum.isNaN) = true) := by
      simp [h1, h2]
    simp only [prepareData]
    rw [if_neg hc]

/-- Witness for C2: a row whose date does not parse makes `prepareData`
throw "Data contains NaN values". -/
theorem prepareData_nan_gate_witness :
    prepareData [RawRow.mk "bad" "100"] = Except.error "Data contains NaN values" :=
  (prepareData_nan_gate [RawRow.mk "bad" "100"]).1.mpr (Or.inl (by decide))

/-- C5: on a single valid row the scaling parameters collapse (min equals
max for both series), the unguarded division of `normalize` evaluates 0 / 0,
and `prepareData` returns successfully with NaN inside the normalized
series: the DataError is not raised, because the NaN validation runs on the
raw parsed values before normalization. -/
theorem prepareData_single_row (r : RawRow)
    (hd : (parseRowDate r).isNaN = false)
    (hp : (parsePrice r.close).isNaN = false) :
    prepareData [r]
      = Except.ok
          { xs := [JSNum.nan]
            ys := [JSNum.nan]
            minDate := jsMinList [parseRowDate r]
            maxDate := jsMaxList [parseRowDate r]
            minPrice := jsMinList [parsePrice r.close]
            maxPrice := jsMaxList [parsePrice r.close] } := by
  have hone : ∀ x : JSNum, x.isNaN = false →
      normalizeMinMax x (jsMinList [x]) (jsMaxList [x]) = JSNum.nan := by
    intro x hx
    cases x with
    | num q =>
        show normalizeMinMax (JSNum.num q) (min2 (JSNum.inf true) (JSNum.num q))
          (max2 (JSNum.inf false) (JSNum.num q)) = JSNum.nan
        rw [min2, max2, if_pos rfl, if_neg (by simp)]
        show JSNum.div (JSNum.num (q - q)) (JSNum.num (q - q)) = JSNum.nan
        rw [JSNum.div]
        simp
    | nan => simp [JSNum.isNaN] at hx
    | inf s =>
        show normalizeMinMax (JSNum.inf s) (min2 (JSNum.inf true) (JSNum.inf s))
          (max2 (JSNum.inf false) (JSNum.inf s)) = JSNum.nan
        rw [min2, max2, Bool.true_and, Bool.false_or]
        show JSNum.div (JSNum.sub (JSNum.inf s) (JSNum.inf s)) (JSNum.sub (JSNum.inf s) (JSNum.inf s)) = JSNum.nan
        rw [JSNum.sub, if_pos rfl]
        rfl
  have hc : ¬ (([r].map parseRowDate).any JSNum.isNaN
      || ([r].map (fun r => parsePrice r.close)).any JSNum.isNaN) = true := by
    simp [hd, hp]
  simp only [prepareData]
  rw [if_neg hc]
  simp only [List.map]
  rw [hone (parseRowDate r) hd, hone (parsePrice r.close) hp]

/-- Witness for C5 at the row (05-Apr-2024, 100). -/
theorem prepareData_single_row_witness :
    prepareData [RawRow.mk "05-Apr-2024" "100"]
      = Except.ok
          { xs := [JSNum.nan]
            ys := [JSNum.nan]
            minDate := jsMinList [parseRowDate (RawRow.mk "05-Apr-2024" "100")]
            maxDate := jsMaxList [parseRowDate (RawRow.mk "05-Apr-2024" "100")]
            minPrice := jsMinList [parsePrice (RawRow.mk "05-Apr-2024" "100").close]
            maxPrice := jsMaxList [parsePrice (RawRow.mk "05-Apr-2024" "100").close] } :=
  prepareData_single_row (RawRow.mk "05-Apr-2024" "100") (by decide) (by decide)

/-- A result row as assembled in `main` (src/prediction.js lines 246-251). -/
structure ResultRow where
  Date : String
  PredictedPrice : ℚ
  RMSE : ℚ
  MSE : ℚ

/-- Model of `Number.prototype.toFixed(2)` on a finite number: the sign,
then the integer for which n / 100 is closest to the absolute value (ties
towards the larger n), rendered with exactly two digits after the dot.
(The exponential form used for magnitudes of 10 to the 21st and beyond is
out of scope for this program.) -/
def toFixed2 (q : ℚ) : String :=
  let sign := if q < 0 then "-" else ""
  let n : Nat := (Int.floor (100 * |q| + 1 / 2)).toNat
  sign ++ natToDec (n / 100) ++ "." ++ padStartZeros 2 (natToDec (n % 100))

/-- The row records after the cleaning map of `saveToCSV`
(src/prediction.js lines 152-158): every field is a string. -/
structure CleanedRow where
  Date : String
  PredictedPrice : String
  RMSE : String
  MSE : String

/-- The cleaning map of `saveToCSV`: trim the date, format the numeric
fields with two decimals. -/
def cleanRow (row : ResultRow) : CleanedRow :=
  { Date := row.Date.trim
    PredictedPrice := toFixed2 row.PredictedPrice
    RMSE := toFixed2 row.RMSE
    MSE := toFixed2 row.MSE }

/-- Column lookup on a cleaned row, as Papa.unparse selects fields by
column name. -/
def getField (r : CleanedRow) (name : String) : String :=
  if name = "Date" then r.Date
  else if name = "PredictedPrice" then r.PredictedPrice
  else if name = "RMSE" then r.RMSE
  else if name = "MSE" then r.MSE
  else ""

/-- Whether Papa.unparse must quote a field: it contains the delimiter, a
quote, or a line break. -/
def needsQuotes (s : String) : Bool :=
  s.toList.any (fun c => c = ',' || c = '"' || c = '\n' || c = '\r')

/-- A CSV field as Papa.unparse emits it: quoted, with inner quotes doubled,
exactly when quoting is needed. -/
def csvField (s : String) : String :=
  if needsQuotes s then
    "\"" ++ String.mk (s.toList.flatMap (fun c => if c = '"' then ['"', '"'] else [c])) ++ "\""
  else s

/-- Fields of one CSV record joined by the default comma delimiter. -/
def joinFields : List String → String
  | [] => ""
  | [f] => f
  | f :: rest => f ++ "," ++ joinFields rest

/-- CSV records joined by the default CRLF newline of Papa.unparse. -/
def joinLines : List String → String
  | [] => ""
  | [l] => l
  | l :: rest => l ++ "\r\n" ++ joinLines rest

/-- Model of `Papa.unparse(rows, {header: true, columns})`: the header line
holds the column names in order, and each record lists the fields in that
same column order. -/
def papaUnparse (columns : List String) (rows : List CleanedRow) : String :=
  joinLines
    (joinFields (columns.map csvField)
      :: rows.map (fun r => joinFields (columns.map (fun c => csvField (getField r c)))))

/-- Model of `saveToCSV` (src/prediction.js lines 151-168): clean the rows
and serialize them with the explicit column order Date, PredictedPrice,
RMSE, MSE. -/
def saveToCSV (data : List ResultRow) : String :=
  papaUnparse ["Date", "PredictedPrice", "RMSE", "MSE"] (data.map cleanRow)

theorem pad2_check : ∀ m : Nat, m < 100 →
    ((padStartZeros 2 (natToDec m)).toList.length = 2
      && (padStartZeros 2 (natToDec m)).toList.all Char.isDigit) = true := by
  decide

theorem digit_not_special (c : Char) (h : c.isDigit = true) :
    (c = ',' || c = '"' || c = '\n' || c = '\r') = false := by
  by_contra hcon
  simp only [Bool.not_eq_false, Bool.or_eq_true, decide_eq_true_eq] at hcon
  rcases hcon with ((h1 | h1) | h1) | h1 <;> rw [h1] at h <;> exact absurd h (by decide)

theorem needsQuotes_toFixed2 (q : ℚ) : needsQuotes (toFixed2 q) = false := by
  rw [needsQuotes, List.any_eq_false]
  intro c hc
  have hmem : c ∈ (if q < 0 then "-" else "").toList
      ∨ c ∈ (natToDec ((Int.floor (100 * |q| + 1 / 2)).toNat / 100)).toList
      ∨ c ∈ ".".toList
      ∨ c ∈ (padStartZeros 2
          (natToDec ((Int.floor (100 * |q| + 1 / 2)).toNat % 100))).toList := by
    rw [toFixed2] at hc
    have hc' := hc
    simp only [show ∀ a b : String, (a ++ b).toList = a.toList ++ b.toList from
      fun a b => rfl] at hc'
    rcases List.mem_append.mp hc' with h1 | h1
    · rcases List.mem_append.mp h1 with h2 | h2
      · rcases List.mem_append.mp h2 with h3 | h3
        · exact Or.inl h3
        · exact Or.inr (Or.inl h3)
      · exact Or.inr (Or.inr (Or.inl h2))
    · exact Or.inr (Or.inr (Or.inr h1))
  rcases hmem with h1 | h1 | h1 | h1
  · by_cases hq : q < 0
    · rw [if_pos hq] at h1
      simp at h1
      rw [h1]
      decide
    · rw [if_neg hq] at h1
      simp at h1
  · simp [digit_not_special c (natToDec_digits _ c h1)]
  · simp at h1
    rw [h1]
    decide
  · rw [padStartZeros] at h1
    rcases List.mem_append.mp h1 with h2 | h2
    · rw [List.eq_of_mem_replicate h2]
      decide
    · simp [digit_not_special c (natToDec_digits _ c h2)]

theorem csvField_of_no_quotes (s : String) (h : needsQuotes s = false) :
    csvField s = s := by
  rw [csvField, if_neg (by rw [h]; exact Bool.false_ne_true)]

theorem toFixed2_two_decimals (q : ℚ) :
    ∃ (intPart : String) (d1 d2 : Char),
      toFixed2 q = intPart ++ "." ++ String.mk [d1, d2] ∧
      d1.isDigit = true ∧ d2.isDigit = true ∧ '.' ∉ intPart.toList := by
  have hlt : (Int.floor (100 * |q| + 1 / 2)).toNat % 100 < 100 := Nat.mod_lt _ (by omega)
  have hchk := pad2_check _ hlt
  rw [Bool.and_eq_true] at hchk
  have hlen : (padStartZeros 2
      (natToDec ((Int.floor (100 * |q| + 1 / 2)).toNat % 100))).toList.length = 2 :=
    of_decide_eq_true hchk.1
  obtain ⟨d1, d2, hd⟩ := List.length_eq_two.mp hlen
  refine ⟨(if q < 0 then "-" else "")
    ++ natToDec ((Int.floor (100 * |q| + 1 / 2)).toNat / 100), d1, d2, ?_, ?_, ?_, ?_⟩
  · rw [toFixed2]
    have hpad : padStartZeros 2
        (natToDec ((Int.floor (100 * |q| + 1 / 2)).toNat % 100)) = String.mk [d1, d2] := by
      have : (String.mk (padStartZeros 2
          (natToDec ((Int.floor (100 * |q| + 1 / 2)).toNat % 100))).toList)
          = String.mk [d1, d2] := by rw [hd]
      exact this
    rw [hpad]
  · have := hchk.2
    rw [List.all_eq_true, hd] at this
    exact this d1 (by simp)
  · have := hchk.2
    rw [List.all_eq_true, hd] at this
    exact this d2 (by simp)
  · intro hcon
    rw [show ∀ a b : String, (a ++ b).toList = a.toList ++ b.toList from
      fun a b => rfl] at hcon
    rcases List.mem_append.mp hcon with h1 | h1
    · by_cases hq : q < 0
      · rw [if_pos hq] at h1
        simp at h1
      · rw [if_neg hq] at h1
        simp at h1
    · have := natToDec_digits _ '.' h1
      exact absurd this (by decide)

/-- C9: `saveToCSV` writes a header row followed by one record per input
row, with the fixed column order Date, PredictedPrice, RMSE, MSE; the Date
field is the input date string trimmed (quoted only if it contains a
delimiter, quote or line break), and each numeric field is rendered by
toFixed2, which always produces exactly two digits after the decimal
point. -/
theorem saveToCSV_spec (data : List ResultRow) :
    saveToCSV data
      = joinLines
          ("Date,PredictedPrice,RMSE,MSE"
            :: data.map (fun row =>
              csvField row.Date.trim ++ "," ++ toFixed2 row.PredictedPrice ++ ","
                ++ toFixed2 row.RMSE ++ "," ++ toFixed2 row.MSE)) ∧
    (∀ q : ℚ, ∃ (intPart : String) (d1 d2 : Char),
        toFixed2 q = intPart ++ "." ++ String.mk [d1, d2] ∧
        d1.isDigit = true ∧ d2.isDigit = true ∧ '.' ∉ intPart.toList) := by
  refine ⟨?_, toFixed2_two_decimals⟩
  have hrow : ∀ row : ResultRow,
      ((fun r => joinFields
          (["Date", "PredictedPrice", "RMSE", "MSE"].map
            (fun c => csvField (getField r c)))) ∘ cleanRow) row
        = csvField row.Date.trim ++ "," ++ toFixed2 row.PredictedPrice ++ ","
            ++ toFixed2 row.RMSE ++ "," ++ toFixed2 row.MSE := by
    intro row
    show csvField row.Date.trim ++ ","
        ++ (csvField (toFixed2 row.PredictedPrice) ++ ","
          ++ (csvField (toFixed2 row.RMSE) ++ "," ++ csvField (toFixed2 row.MSE))) = _
    rw [csvField_of_no_quotes _ (needsQuotes_toFixed2 _),
      csvField_of_no_quotes _ (needsQuotes_toFixed2 _),
      csvField_of_no_quotes _ (needsQuotes_toFixed2 _)]
    simp only [String.append_assoc]
  have hhead : joinFields
      (["Date", "PredictedPrice", "RMSE", "MSE"].map csvField)
      = "Date,PredictedPrice,RMSE,MSE" := by decide
  rw [saveToCSV, papaUnparse, List.map_map, hhead, funext hrow]

/-- Witness for C1 at start date 0 (1970-01-01, a Thursday). -/
theorem getNext30Weekdays_spec_witness :
    (getNext30Weekdays 0).length = 30 ∧
    getNext30Weekdays 0 = (getNext30WeekdayDays 0).map toISODateString ∧
    (∀ x ∈ getNext30WeekdayDays 0, isWeekdayDay x = true) ∧
    List.Chain' (fun a b => a < b ∧ ∀ c : Int, a < c → c < b → isWeekdayDay c = false)
      (getNext30WeekdayDays 0) ∧
    (∀ x ∈ getNext30WeekdayDays 0, (0 : Int) ≤ x) ∧
    (isWeekdayDay 0 = true → (getNext30WeekdayDays 0).head? = some 0) :=
  getNext30Weekdays_spec 0
